import Mathlib

/-!
Shallow embedding of the diecast_bot dice-notation parser and evaluator.

The repository contains two near-duplicate implementations of the core:
`src/bot/parser.py` + `src/bot/client.py` (the parser keeps the diecast
count/size fields as digit strings; the evaluator bounds their digit
lengths and converts them to integers in place), and `src/bot/__init__.py`
(the parser converts the fields to integers immediately; the message
handler rejects input containing any of the characters asterisk, slash,
percent and parentheses before parsing; the evaluator has no bounds).
Both are embedded below: the recursive-descent parser is parameterized by
a flag `conv` selecting how the diecast node's fields are stored, and the
two evaluators are `evalStepC`/`evalNodesC` (client.py) and
`evalStepI`/`evalNodesI` (__init__.py).

Python strings become `List Char`; Python exceptions become `Except`
values (`PErr` for the parser: the declared `ParseError` plus the
`TypeError` raised by `add_child(None)` and the `IndexError` raised by
`chunks[0]` on an empty list); `random.randint` becomes an oracle
`rng : Nat → Int → Int → Int` applied at an incrementing call counter, so
the `k`-th call of `randint(lo, hi)` is `rng k lo hi`.  `RngOk rng` states
that the oracle respects the closed range `[lo, hi]`, which is how Python's
`random.randint` contract is modelled.
-/

/-- The ASCII whitespace characters stripped by Python's `str.strip()` and
matched by the regex class backslash-s. -/
def pySpace (c : Char) : Bool :=
  c = ' ' || c = '\t' || c = '\n' || c = '\x0d' || c = '\x0b' || c = '\x0c'

/-- Python `str.strip()`: remove leading and trailing whitespace. -/
def pyStrip (l : List Char) : List Char :=
  ((l.dropWhile pySpace).reverse.dropWhile pySpace).reverse

/-- Python `int()` applied to a string of decimal digits. -/
def toNatD (l : List Char) : Nat :=
  l.foldl (fun acc c => 10 * acc + (c.toNat - '0'.toNat)) 0

/-- Field value of a diecast node: `parser.py` stores the matched digit
strings (`.s`), while `__init__.py` (and `client.py`'s evaluator, after
its in-place conversion) stores integers (`.i`). -/
inductive NVal where
  | s (v : List Char)
  | i (v : Nat)
deriving DecidableEq, Repr

/-- `DieCastParser.ParseNode`: raw matched text, a type tag, a children
list, and the two extra fields `n`/`size` assigned on diecast nodes. -/
inductive PNode where
  | mk (raw : List Char) (type : String) (children : List PNode)
      (n : Option NVal) (size : Option NVal)
deriving Repr

def PNode.raw : PNode → List Char
  | .mk r _ _ _ _ => r

def PNode.type : PNode → String
  | .mk _ t _ _ _ => t

def PNode.children : PNode → List PNode
  | .mk _ _ c _ _ => c

def PNode.nfield : PNode → Option NVal
  | .mk _ _ _ n _ => n

def PNode.sizefield : PNode → Option NVal
  | .mk _ _ _ _ s => s

/-- The errors a parse can signal: the declared `ParseError`, the
`TypeError` raised by `ParseNode.add_child` when handed `None`, and the
`IndexError` raised by `chunks[0]` in `_adv` when the term text is
whitespace-only. -/
inductive PErr where
  | parseError
  | typeError
  | indexError
deriving DecidableEq, Repr

/-- `_const`: strip, take the longest run of ASCII digits; zero digits is
a `ParseError`. -/
def constP (t : List Char) : Except PErr (PNode × List Char) :=
  let s := pyStrip t
  let ds := s.takeWhile Char.isDigit
  if ds = [] then .error .parseError
  else .ok (.mk ds "constant" [] none none, s.drop ds.length)

/-- `_op`: strip, then the first character must be a plus or minus sign.
On whitespace-only text the index access itself would raise, but `_op` is
never reached with such text. -/
def opP (t : List Char) : Except PErr (PNode × List Char) :=
  match pyStrip t with
  | [] => .error .indexError
  | c :: rest =>
    if c = '+' ∨ c = '-' then .ok (.mk [c] "operator" [] none none, rest)
    else .error .parseError

/-- How a diecast node's count/size fields are stored: `parser.py`
(`conv = false`) keeps the digit strings, `__init__.py` (`conv = true`)
converts them with `int()` at parse time. -/
def nval (conv : Bool) (ds : List Char) : NVal :=
  if conv then .i (toNatD ds) else .s ds

/-- `_diecast`: strip, then match the anchored regex
`((\d*)\s*d\s*(\d+))(.*)` — optional count digits, optional whitespace, a
literal letter d, optional whitespace, mandatory size digits, then the
trailing capture.  The regex dot does not match a newline, so the returned
remainder is only the trailing text up to the first newline. -/
def diecastP (conv : Bool) (t : List Char) : Except PErr (PNode × List Char) :=
  let s := pyStrip t
  let g2 := s.takeWhile Char.isDigit
  let t1 := s.dropWhile Char.isDigit
  let ws1 := t1.takeWhile pySpace
  match t1.dropWhile pySpace with
  | [] => .error .parseError
  | c :: t3 =>
    if c = 'd' then
      let ws2 := t3.takeWhile pySpace
      let t4 := t3.dropWhile pySpace
      let g3 := t4.takeWhile Char.isDigit
      if g3 = [] then .error .parseError
      else
        let raw := g2 ++ ws1 ++ 'd' :: (ws2 ++ g3)
        let g4 := (t4.drop g3.length).takeWhile (fun x => x ≠ '\n')
        .ok (.mk raw "diecast" []
              (some (nval conv (if g2 = [] then ['1'] else g2)))
              (some (nval conv g3)), g4)
    else .error .parseError

/-- `_adv`: strip and split off the first whitespace-delimited token; on
empty text `chunks[0]` raises an `IndexError`.  The keyword must be one of
the four advantage/disadvantage words and is truncated to 3 letters. -/
def advP (t : List Char) : Except PErr (PNode × List Char) :=
  match pyStrip t with
  | [] => .error .indexError
  | c :: rest =>
    let s := c :: rest
    let kw := s.takeWhile (fun x => !(pySpace x))
    let rem := (s.drop kw.length).dropWhile pySpace
    if kw = "advantage".data ∨ kw = "disadvantage".data ∨
        kw = "adv".data ∨ kw = "dis".data then
      .ok (.mk (kw.take 3) "adv" [] none none, rem)
    else .error .parseError

/-- `_term`: try `_diecast`, on `ParseError` try `_const`, on `ParseError`
try `_adv`; any other exception propagates uncaught. -/
def termP (conv : Bool) (t : List Char) : Except PErr (PNode × List Char) :=
  let wrap : PNode × List Char → PNode × List Char :=
    fun p => (.mk t "term" [p.1] none none, p.2)
  match diecastP conv t with
  | .ok p => .ok (wrap p)
  | .error .parseError =>
    match constP t with
    | .ok p => .ok (wrap p)
    | .error .parseError =>
      match advP t with
      | .ok p => .ok (wrap p)
      | .error e => .error e
    | .error e => .error e
  | .error e => .error e

mutual

/-- `_expr`: on empty text return the absent subtree; otherwise parse a
term and, when its remainder is non-empty, a term tail.  `add_child`
raises a `TypeError` when the tail parse returns `None` as its node.  The
`Nat` argument is recursion fuel; every entry point supplies more fuel
than the input length, which the recursion strictly consumes. -/
def exprF (conv : Bool) : Nat → List Char →
    Except PErr (Option PNode × Option (List Char))
  | 0, _ => .error .parseError
  | _ + 1, [] => .ok (none, none)
  | fuel + 1, t =>
    match termP conv t with
    | .error e => .error e
    | .ok (sub, opt) =>
      if opt = [] then .ok (some (.mk t "expression" [sub] none none), none)
      else
        match termTailF conv fuel opt with
        | .error e => .error e
        | .ok (none, _) => .error .typeError
        | .ok (some tn, extra) =>
          .ok (some (.mk t "expression" [sub, tn] none none), extra)

/-- `_term_tail`: on empty text the absent subtree; otherwise an operator
followed by an expression; `add_child` raises a `TypeError` when the
nested expression is `None` (an operator at the end of the input). -/
def termTailF (conv : Bool) : Nat → List Char →
    Except PErr (Option PNode × Option (List Char))
  | 0, _ => .error .parseError
  | _ + 1, [] => .ok (none, none)
  | fuel + 1, t =>
    match opP t with
    | .error e => .error e
    | .ok (opn, rest) =>
      match exprF conv fuel rest with
      | .error e => .error e
      | .ok (none, _) => .error .typeError
      | .ok (some se, rest') =>
        .ok (some (.mk t "term_tail" [opn, se] none none), rest')

end

/-- `DieCastParser.__init__` / `_start`: run `_expr` on the raw text and
keep the tree, discarding the top-level remainder. -/
def parseWith (conv : Bool) (l : List Char) : Except PErr (Option PNode) :=
  match exprF conv (l.length + 1) l with
  | .error e => .error e
  | .ok (tree, _) => .ok tree

/-- The `src/bot/parser.py` parser (diecast fields kept as strings). -/
def parseClient (l : List Char) : Except PErr (Option PNode) := parseWith false l

/-- The `src/bot/__init__.py` parser (diecast fields converted to ints). -/
def parseInit (l : List Char) : Except PErr (Option PNode) := parseWith true l

mutual

/-- `_walk`: yield the node itself when its type tag is terminal, then
recurse into the children in order. -/
def walkNode (node : PNode) : List PNode :=
  match node with
  | .mk raw ty cs n s =>
    (if ty = "constant" ∨ ty = "operator" ∨ ty = "diecast" ∨ ty = "adv"
      then [PNode.mk raw ty cs n s] else []) ++ walkKids cs

def walkKids : List PNode → List PNode
  | [] => []
  | c :: cs => walkNode c ++ walkKids cs

end

/-- A component of the reported breakdown: a single signed value, or the
list of individual rolls of a multi-die or advantage term. -/
inductive Comp where
  | scalar (v : Int)
  | group (vs : List Int)
deriving DecidableEq, Repr

/-- The ways the client evaluation loop can abort: the two early returns
guarding the diecast digit lengths, and a stand-in for the `TypeError`
Python would raise if a diecast node reached the evaluator with fields not
in the shape the parser produces (unreachable from a real parse). -/
inductive AbortE where
  | tooMany
  | tooBig
  | internal
deriving DecidableEq, Repr

/-- The evaluation loop's running state: the sign in effect, the constant
subtotal, the running total, the components accumulated so far, the count
of dice physically rolled, and the RNG call counter of the model. -/
structure EvalSt where
  scalar : Int
  constTotal : Int
  total : Int
  comps : List Comp
  numCasts : Nat
  k : Nat
deriving DecidableEq, Repr

/-- The state at entry of the evaluation loop. -/
def st0 : EvalSt := ⟨1, 0, 0, [], 0, 0⟩

/-- The RNG oracle: call index, then the two `randint` arguments. -/
def RngT := Nat → Int → Int → Int

/-- The `random.randint(lo, hi)` contract: a result in the closed range. -/
def RngOk (rng : RngT) : Prop :=
  ∀ k lo hi, lo ≤ hi → lo ≤ rng k lo hi ∧ rng k lo hi ≤ hi

/-- A concrete oracle that always returns the lower bound. -/
def rngLo : RngT := fun _ lo _ => lo

/-- The rolls consumed by a comprehension performing `count` calls of
`randint(1, size)` starting at call counter `k`. -/
def rolls (rng : RngT) (k : Nat) (count : Nat) (size : Nat) : List Int :=
  (List.range count).map (fun i => rng (k + i) 1 (size : Int))

/-- One iteration of the `client.py` evaluation loop on one walked node:
operators update the sign; constants feed the constant subtotal; `adv`
rolls twice in `[1, 20]` and keeps the max (min when the keyword was
`dis`); a diecast first bounds the digit lengths of its count and size
strings (early return), then converts the fields to integers in place and
rolls.  Returns the possibly mutated node together with the new state. -/
def evalStepC (rng : RngT) (node : PNode) (st : EvalSt) :
    Except AbortE (PNode × EvalSt) :=
  if node.type = "operator" then
    .ok (node, { st with scalar := if node.raw = ['+'] then 1 else -1 })
  else if node.type = "constant" then
    .ok (node, { st with constTotal := st.constTotal + st.scalar * (toNatD node.raw : Int) })
  else if node.type = "adv" then
    let r0 := rng st.k 1 20
    let r1 := rng (st.k + 1) 1 20
    let picked := if node.raw = "dis".data then min r0 r1 else max r0 r1
    .ok (node, { st with total := st.total + st.scalar * picked,
                         comps := st.comps ++ [.group [r0, r1]],
                         numCasts := st.numCasts + 2,
                         k := st.k + 2 })
  else if node.type = "diecast" then
    match node.nfield, node.sizefield with
    | some (.s ns), some (.s ss) =>
      if 5 < ns.length then .error .tooMany
      else if 6 < ss.length then .error .tooBig
      else
        let n := toNatD ns
        let sz := toNatD ss
        let node' := PNode.mk node.raw node.type node.children
          (some (.i n)) (some (.i sz))
        if 1 < n then
          let group := (rolls rng st.k n sz).map (fun r => st.scalar * r)
          .ok (node', { st with total := st.total + group.sum,
                                comps := st.comps ++ [.group group],
                                numCasts := st.numCasts + n,
                                k := st.k + n })
        else
          let r := st.scalar * rng st.k 1 (sz : Int)
          .ok (node', { st with total := st.total + r,
                                comps := st.comps ++ [.scalar r],
                                numCasts := st.numCasts + n,
                                k := st.k + 1 })
    | _, _ => .error .internal
  else .ok (node, st)

/-- The `client.py` evaluation loop over the walked terminal nodes; an
early return aborts at once, discarding the partial state.  On success the
final state is returned together with the nodes as the loop's in-place
mutation left them. -/
def evalNodesC (rng : RngT) : List PNode → EvalSt →
    Except AbortE (EvalSt × List PNode)
  | [], st => .ok (st, [])
  | node :: restNodes, st =>
    match evalStepC rng node st with
    | .error e => .error e
    | .ok (node', st') =>
      match evalNodesC rng restNodes st' with
      | .error e => .error e
      | .ok (st'', rest') => .ok (st'', node' :: rest')

/-- One iteration of the `__init__.py` evaluation loop: identical to the
client loop except that diecast fields are already integers and there is
no digit-length bound and no field mutation. -/
def evalStepI (rng : RngT) (node : PNode) (st : EvalSt) :
    Except AbortE (PNode × EvalSt) :=
  if node.type = "operator" then
    .ok (node, { st with scalar := if node.raw = ['+'] then 1 else -1 })
  else if node.type = "constant" then
    .ok (node, { st with constTotal := st.constTotal + st.scalar * (toNatD node.raw : Int) })
  else if node.type = "adv" then
    let r0 := rng st.k 1 20
    let r1 := rng (st.k + 1) 1 20
    let picked := if node.raw = "dis".data then min r0 r1 else max r0 r1
    .ok (node, { st with total := st.total + st.scalar * picked,
                         comps := st.comps ++ [.group [r0, r1]],
                         numCasts := st.numCasts + 2,
                         k := st.k + 2 })
  else if node.type = "diecast" then
    match node.nfield, node.sizefield with
    | some (.i n), some (.i sz) =>
      if 1 < n then
        let group := (rolls rng st.k n sz).map (fun r => st.scalar * r)
        .ok (node, { st with total := st.total + group.sum,
                             comps := st.comps ++ [.group group],
                             numCasts := st.numCasts + n,
                             k := st.k + n })
      else
        let r := st.scalar * rng st.k 1 (sz : Int)
        .ok (node, { st with total := st.total + r,
                             comps := st.comps ++ [.scalar r],
                             numCasts := st.numCasts + n,
                             k := st.k + 1 })
    | _, _ => .error .internal
  else .ok (node, st)

/-- The `__init__.py` evaluation loop over the walked terminal nodes. -/
def evalNodesI (rng : RngT) : List PNode → EvalSt →
    Except AbortE (EvalSt × List PNode)
  | [], st => .ok (st, [])
  | node :: restNodes, st =>
    match evalStepI rng node st with
    | .error e => .error e
    | .ok (node', st') =>
      match evalNodesI rng restNodes st' with
      | .error e => .error e
      | .ok (st'', rest') => .ok (st'', node' :: rest')

/-- The outcome of servicing one roll request, as far as the user-visible
response distinguishes them.  `report` carries the verb of the summary
("rolled" or "computed"), the reported total, and the component breakdown
when it is shown (`none` when suppressed). -/
inductive RollOutcome where
  | unsupportedMsg
  | parseFailMsg
  | parserCrash (e : PErr)
  | noTreeCrash
  | tooManyMsg
  | tooBigMsg
  | evalCrash
  | report (verb : String) (total : Int) (breakdown : Option (List Comp))
deriving DecidableEq, Repr

/-- The response assembly shared by both handlers: after the loop the
constant subtotal is appended as the final component (even when zero) and
added to the total; the verb is "rolled" exactly when `num_casts` is
non-zero, and the breakdown is shown exactly when `num_casts < 25`. -/
def assembleReport (st : EvalSt) : RollOutcome :=
  let total := st.total + st.constTotal
  let comps := st.comps ++ [.scalar st.constTotal]
  .report (if st.numCasts = 0 then "computed" else "rolled") total
    (if st.numCasts < 25 then some comps else none)

/-- `client.py  DieCastBot._on_roll_request`: parse (only `ParseError` is
caught; a `TypeError` or `IndexError` escapes), walk the tree (raising
`NoTreeError` when the parse of empty input produced no tree), run the
evaluation loop, then assemble the response.  There is no check for the
unsupported characters in this handler. -/
def clientRoll (l : List Char) (rng : RngT) : RollOutcome :=
  match parseClient l with
  | .error .parseError => .parseFailMsg
  | .error e => .parserCrash e
  | .ok none => .noTreeCrash
  | .ok (some tree) =>
    match evalNodesC rng (walkNode tree) st0 with
    | .error .tooMany => .tooManyMsg
    | .error .tooBig => .tooBigMsg
    | .error .internal => .evalCrash
    | .ok (st, _) => assembleReport st

/-- True when the text contains one of the characters the `__init__.py`
handler refuses: asterisk, slash, percent, parentheses. -/
def hasForbidden (l : List Char) : Bool :=
  l.any (fun c => c = '*' ∨ c = '/' ∨ c = '%' ∨ c = '(' ∨ c = ')')

/-- `__init__.py  DieCastBot.on_message` roll handling: first the corner
case check rejecting input that contains any of the unsupported operator
characters, before any parsing; then the same parse / walk / evaluate
chain with the `__init__.py` parser and evaluator. -/
def initRoll (l : List Char) (rng : RngT) : RollOutcome :=
  if hasForbidden l then .unsupportedMsg
  else
    match parseInit l with
    | .error .parseError => .parseFailMsg
    | .error e => .parserCrash e
    | .ok none => .noTreeCrash
    | .ok (some tree) =>
      match evalNodesI rng (walkNode tree) st0 with
      | .error .tooMany => .tooManyMsg
      | .error .tooBig => .tooBigMsg
      | .error .internal => .evalCrash
      | .ok (st, _) => assembleReport st

/-- True when an `Except` value is the error case. -/
def exIsErr {α : Type} : Except PErr α → Bool
  | .error _ => true
  | .ok _ => false

/-- The diecast node `_diecast` builds (string fields) for count digits
`ds` and size digits `es` when the whole text is the dice notation. -/
def dcNodeS (ds es : List Char) : PNode :=
  .mk (ds ++ 'd' :: es) "diecast" []
    (some (.s (if ds = [] then ['1'] else ds))) (some (.s es))

/-- The term node wrapping `dcNodeS`. -/
def termNdM (ds es : List Char) : PNode :=
  .mk (ds ++ 'd' :: es) "term" [dcNodeS ds es] none none

/-- The expression tree produced by parsing a lone dice notation. -/
def treeNdM (ds es : List Char) : PNode :=
  .mk (ds ++ 'd' :: es) "expression" [termNdM ds es] none none

/-- The in-place update the `client.py` evaluation loop performs on a
walked node: a diecast node's count and size fields are reassigned with
their `int()` values; every other node is left as it was. -/
def touchC (node : PNode) : PNode :=
  if node.type = "diecast" then
    match node with
    | .mk raw ty cs (some (.s ns)) (some (.s ss)) =>
      .mk raw ty cs (some (.i (toNatD ns))) (some (.i (toNatD ss)))
    | other => other
  else node

/-- The parse tree of the input 25d6. -/
def tree25 : PNode :=
  .mk "25d6".data "expression"
    [.mk "25d6".data "term"
      [.mk "25d6".data "diecast" [] (some (.s ['2', '5'])) (some (.s ['6']))]
      none none]
    none none

/-- The evaluation state after rolling 25d6 against the all-ones oracle. -/
def st25 : EvalSt := ⟨1, 0, 25, [Comp.group (List.replicate 25 (1 : Int))], 25, 25⟩

/-- The walked nodes of 25d6 after the evaluation loop's field updates. -/
def ns25 : List PNode := [.mk "25d6".data "diecast" [] (some (.i 25)) (some (.i 6))]

/-- The parse tree of the input with one die, a minus, and another die. -/
def tree166 : PNode :=
  PNode.mk "1d6 - 1d6".data "expression"
    [PNode.mk "1d6 - 1d6".data "term"
      [PNode.mk "1d6".data "diecast" [] (some (.s ['1'])) (some (.s ['6']))] none none,
     PNode.mk " - 1d6".data "term_tail"
       [PNode.mk ['-'] "operator" [] none none,
        PNode.mk " 1d6".data "expression"
          [PNode.mk " 1d6".data "term"
            [PNode.mk "1d6".data "diecast" [] (some (.s ['1'])) (some (.s ['6']))] none none]
          none none]
       none none]
    none none

/-- The parse tree of the input 2d6. -/
def tree2d6 : PNode :=
  PNode.mk "2d6".data "expression"
    [PNode.mk "2d6".data "term"
      [PNode.mk "2d6".data "diecast" [] (some (.s ['2'])) (some (.s ['6']))]
      none none]
    none none

/-! Helper lemmas. -/

lemma rngLo_ok : RngOk rngLo := fun _ lo _ h => ⟨le_refl lo, h⟩

lemma digit_not_space {c : Char} (h : c.isDigit = true) : pySpace c = false := by
  unfold pySpace
  simp only [Bool.or_eq_false_iff, decide_eq_false_iff_not]
  refine ⟨⟨⟨⟨⟨?_, ?_⟩, ?_⟩, ?_⟩, ?_⟩, ?_⟩ <;> rintro rfl <;> exact absurd h (by decide)

lemma dropWhile_head_false {p : Char → Bool} {l : List Char}
    (h : ∀ c, l.head? = some c → p c = false) : l.dropWhile p = l := by
  cases l with
  | nil => rfl
  | cons c cs => simp [List.dropWhile_cons, h c rfl]

lemma takeWhile_head_false {p : Char → Bool} {l : List Char}
    (h : ∀ c, l.head? = some c → p c = false) : l.takeWhile p = [] := by
  cases l with
  | nil => rfl
  | cons c cs => simp [List.takeWhile_cons, h c rfl]

lemma pyStrip_eq_self {l : List Char}
    (h1 : ∀ c, l.head? = some c → pySpace c = false)
    (h2 : ∀ c, l.getLast? = some c → pySpace c = false) : pyStrip l = l := by
  unfold pyStrip
  rw [dropWhile_head_false h1, dropWhile_head_false (by
    intro c hc
    rw [List.head?_reverse] at hc
    exact h2 c hc), List.reverse_reverse]

lemma takeWhile_all_append {p : Char → Bool} {l1 l2 : List Char}
    (h : ∀ a ∈ l1, p a = true) :
    (l1 ++ l2).takeWhile p = l1 ++ l2.takeWhile p := by
  rw [List.takeWhile_append, List.takeWhile_eq_self_iff.mpr h, if_pos rfl]

lemma dropWhile_all_append {p : Char → Bool} {l1 l2 : List Char}
    (h : ∀ a ∈ l1, p a = true) :
    (l1 ++ l2).dropWhile p = l2.dropWhile p := by
  rw [List.dropWhile_append, if_pos]
  simp [List.dropWhile_eq_nil_iff.mpr h]

lemma diecastP_err {conv : Bool} {t : List Char} {e : PErr}
    (h : diecastP conv t = .error e) : e = .parseError := by
  unfold diecastP at h
  dsimp only at h
  split at h <;> simp_all <;> split at h <;> simp_all <;> split at h <;> simp_all

lemma constP_err {t : List Char} {e : PErr}
    (h : constP t = .error e) : e = .parseError := by
  unfold constP at h
  dsimp only at h
  split at h <;> simp_all

lemma advP_err {t : List Char} {e : PErr} (hs : pyStrip t ≠ [])
    (h : advP t = .error e) : e = .parseError := by
  unfold advP at h
  dsimp only at h
  split at h <;> simp_all <;> split at h <;> simp_all

lemma termP_err {t : List Char} {e : PErr} (hs : pyStrip t ≠ [])
    (h : termP false t = .error e) : e = .parseError := by
  unfold termP at h
  dsimp only at h
  cases h1 : diecastP false t with
  | ok p => rw [h1] at h; exact absurd h (by simp)
  | error e1 =>
    have he1 := diecastP_err h1
    subst he1
    rw [h1] at h
    cases h2 : constP t with
    | ok p => rw [h2] at h; exact absurd h (by simp)
    | error e2 =>
      have he2 := constP_err h2
      subst he2
      rw [h2] at h
      cases h3 : advP t with
      | ok p => rw [h3] at h; exact absurd h (by simp)
      | error e3 =>
        rw [h3] at h
        injection h with h4
        subst h4
        exact advP_err hs h3

lemma diecastP_shape (conv : Bool) (ds es rest : List Char)
    (hds : ∀ c ∈ ds, c.isDigit = true)
    (hne : es ≠ []) (hes : ∀ c ∈ es, c.isDigit = true)
    (hstrip : pyStrip (ds ++ 'd' :: (es ++ rest)) = ds ++ 'd' :: (es ++ rest))
    (hrest : ∀ c, rest.head? = some c → c.isDigit = false) :
    diecastP conv (ds ++ 'd' :: (es ++ rest)) =
      .ok (.mk (ds ++ 'd' :: es) "diecast" []
            (some (nval conv (if ds = [] then ['1'] else ds)))
            (some (nval conv es)),
        rest.takeWhile (fun x => x ≠ '\n')) := by
  obtain ⟨e0, es', rfl⟩ : ∃ e0 es', es = e0 :: es' := by
    cases es with
    | nil => exact absurd rfl hne
    | cons a b => exact ⟨a, b, rfl⟩
  have he0 : e0.isDigit = true := hes e0 (by simp)
  simp only [List.cons_append] at hstrip ⊢
  have hg2 : List.takeWhile Char.isDigit (ds ++ 'd' :: e0 :: (es' ++ rest)) = ds := by
    rw [takeWhile_all_append hds, List.takeWhile_cons]
    simp
  have ht1 : List.dropWhile Char.isDigit (ds ++ 'd' :: e0 :: (es' ++ rest))
      = 'd' :: e0 :: (es' ++ rest) := by
    rw [dropWhile_all_append hds, List.dropWhile_cons]
    simp
  have hws2 : List.takeWhile pySpace (e0 :: (es' ++ rest)) = [] := by
    rw [List.takeWhile_cons]
    simp [digit_not_space he0]
  have ht4 : List.dropWhile pySpace (e0 :: (es' ++ rest)) = e0 :: (es' ++ rest) := by
    rw [List.dropWhile_cons]
    simp [digit_not_space he0]
  have hg3 : List.takeWhile Char.isDigit (e0 :: (es' ++ rest)) = e0 :: es' := by
    rw [← List.cons_append, takeWhile_all_append hes, takeWhile_head_false hrest,
      List.append_nil]
  have hdrop : List.drop (e0 :: es').length (e0 :: (es' ++ rest)) = rest := by
    rw [← List.cons_append, List.drop_left]
  have hdns : pySpace 'd' = false := by decide
  simp only [diecastP, hstrip, hg2, ht1, List.takeWhile_cons, List.dropWhile_cons,
    hdns, Bool.false_eq_true, if_false, if_pos rfl]
  simp only [digit_not_space he0, Bool.false_eq_true, if_false, if_true, hg3, hdrop]
  simp

lemma pyStrip_ddigits (ds es : List Char) (hds : ∀ c ∈ ds, c.isDigit = true)
    (hne : es ≠ []) (hes : ∀ c ∈ es, c.isDigit = true) :
    pyStrip (ds ++ 'd' :: es) = ds ++ 'd' :: es := by
  apply pyStrip_eq_self
  · intro c hc
    cases ds with
    | nil =>
      simp at hc
      subst hc
      decide
    | cons d0 ds' =>
      simp at hc
      subst hc
      exact digit_not_space (hds d0 (by simp))
  · intro c hc
    rw [List.getLast?_append_of_ne_nil _ (by simp)] at hc
    cases es with
    | nil => exact absurd rfl hne
    | cons e0 es' =>
      rw [List.getLast?_cons_cons] at hc
      have hx : c ∈ (e0 :: es').getLast? := by simpa [Option.mem_def] using hc
      obtain ⟨h9, hceq⟩ := List.mem_getLast?_eq_getLast hx
      have hm : c ∈ e0 :: es' := by rw [hceq]; exact List.getLast_mem h9
      exact digit_not_space (hes c hm)

lemma diecastP_NdM (ds es : List Char) (hds : ∀ c ∈ ds, c.isDigit = true)
    (hne : es ≠ []) (hes : ∀ c ∈ es, c.isDigit = true) :
    diecastP false (ds ++ 'd' :: es) = .ok (dcNodeS ds es, []) := by
  have hd := diecastP_shape false ds es [] hds hne hes
    (by rw [List.append_nil]; exact pyStrip_ddigits ds es hds hne hes)
    (by intro c hc; simp at hc)
  rw [List.append_nil] at hd
  rw [hd]
  simp [dcNodeS, nval]

lemma termP_NdM (ds es : List Char) (hds : ∀ c ∈ ds, c.isDigit = true)
    (hne : es ≠ []) (hes : ∀ c ∈ es, c.isDigit = true) :
    termP false (ds ++ 'd' :: es) = .ok (termNdM ds es, []) := by
  unfold termP
  dsimp only
  rw [diecastP_NdM ds es hds hne hes]
  rfl

lemma parseClient_NdM (ds es : List Char) (hds : ∀ c ∈ ds, c.isDigit = true)
    (hne : es ≠ []) (hes : ∀ c ∈ es, c.isDigit = true) :
    parseClient (ds ++ 'd' :: es) = .ok (some (treeNdM ds es)) := by
  unfold parseClient parseWith
  rcases ds with _ | ⟨d0, ds'⟩
  · simp only [List.nil_append]
    simp only [exprF]
    rw [show termP false ('d' :: es) = .ok (termNdM [] es, []) from by
      have := termP_NdM [] es hds hne hes
      simpa using this]
    simp [treeNdM]
  · simp only [List.cons_append]
    simp only [exprF]
    rw [show termP false (d0 :: (ds' ++ 'd' :: es))
        = .ok (termNdM (d0 :: ds') es, []) from by
      have := termP_NdM (d0 :: ds') es hds hne hes
      simpa using this]
    simp [treeNdM]

lemma walkNode_NdM (ds es : List Char) :
    walkNode (treeNdM ds es) = [dcNodeS ds es] := by
  simp [treeNdM, termNdM, dcNodeS, walkNode, walkKids]

lemma evalC_single_diecast (rng : RngT) (ds es : List Char) (hdne : ds ≠ [])
    (hL1 : ds.length ≤ 5) (hL2 : es.length ≤ 6) (hN : 1 ≤ toNatD ds) :
    ∃ stf ns, evalNodesC rng [dcNodeS ds es] st0 = .ok (stf, ns) ∧
      stf.total = (rolls rng 0 (toNatD ds) (toNatD es)).sum ∧
      stf.numCasts = toNatD ds ∧ stf.constTotal = 0 ∧ stf.scalar = 1 := by
  simp only [evalNodesC, evalStepC, dcNodeS, PNode.type, PNode.raw, PNode.nfield,
    PNode.sizefield, if_neg hdne]
  rw [if_neg (by decide : ¬(("diecast" : String) = "operator")),
      if_neg (by decide : ¬(("diecast" : String) = "constant")),
      if_neg (by decide : ¬(("diecast" : String) = "adv")),
      if_neg (show ¬(5 < ds.length) by omega),
      if_neg (show ¬(6 < es.length) by omega)]
  by_cases h1 : 1 < toNatD ds
  · rw [if_pos h1]
    refine ⟨_, _, rfl, ?_, ?_, ?_, ?_⟩ <;>
      simp [st0, rolls, Function.comp_def]
  · rw [if_neg h1]
    have hn1 : toNatD ds = 1 := by omega
    refine ⟨_, _, rfl, ?_, ?_, ?_, ?_⟩ <;>
      simp [st0, rolls, hn1, Function.comp_def, List.range_succ]

lemma evalStepC_rng_irrel (rng rng' : RngT) (node : PNode) (st : EvalSt)
    (h1 : node.type ≠ "adv") (h2 : node.type ≠ "diecast") :
    evalStepC rng node st = evalStepC rng' node st := by
  unfold evalStepC
  by_cases hop : node.type = "operator"
  · rw [if_pos hop, if_pos hop]
  · rw [if_neg hop, if_neg hop]
    by_cases hcon : node.type = "constant"
    · rw [if_pos hcon, if_pos hcon]
    · rw [if_neg hcon, if_neg hcon, if_neg h1, if_neg h1, if_neg h2, if_neg h2]

lemma evalStepC_touch {rng : RngT} {node node' : PNode} {st st' : EvalSt}
    (h : evalStepC rng node st = .ok (node', st')) : node' = touchC node := by
  cases node with
  | mk raw ty cs nf sf =>
    unfold evalStepC at h
    simp only [PNode.type, PNode.raw, PNode.nfield, PNode.sizefield] at h
    unfold touchC
    simp only [PNode.type]
    by_cases hop : ty = "operator"
    · rw [if_pos hop] at h
      rw [if_neg (by rw [hop]; decide)]
      simp only [Except.ok.injEq, Prod.mk.injEq] at h
      exact h.1.symm
    · rw [if_neg hop] at h
      by_cases hcon : ty = "constant"
      · rw [if_pos hcon] at h
        rw [if_neg (by rw [hcon]; decide)]
        simp only [Except.ok.injEq, Prod.mk.injEq] at h
        exact h.1.symm
      · rw [if_neg hcon] at h
        by_cases hadv : ty = "adv"
        · rw [if_pos hadv] at h
          rw [if_neg (by rw [hadv]; decide)]
          simp only [Except.ok.injEq, Prod.mk.injEq] at h
          exact h.1.symm
        · rw [if_neg hadv] at h
          by_cases hdc : ty = "diecast"
          · rw [if_pos hdc] at h
            rw [if_pos hdc]
            match nf, sf with
            | some (.s ns), some (.s ss) =>
              dsimp only at h ⊢
              split_ifs at h with hb1 hb2 hb3 <;>
                simp only [Except.ok.injEq, Prod.mk.injEq] at h <;>
                exact h.1.symm
            | none, _ => exact absurd h (by simp)
            | some (.i v), _ => exact absurd h (by simp)
            | some (.s ns), none => exact absurd h (by simp)
            | some (.s ns), some (.i v) => exact absurd h (by simp)
          · rw [if_neg hdc] at h
            rw [if_neg hdc]
            simp only [Except.ok.injEq, Prod.mk.injEq] at h
            exact h.1.symm

/-! Claim theorems. -/

/-- C1 (amended): the `__init__.py` message handler rejects every input
containing one of the characters asterisk, slash, percent or parentheses
before any parsing, answering with the fixed unsupported-operator
response.  The `client.py` roll handler performs no such check, so there
such input falls through to the parser and surfaces as the generic parse
failure (see the counterexample). -/
theorem c1_amended (l : List Char) (rng : RngT) (h : hasForbidden l = true) :
    initRoll l rng = RollOutcome.unsupportedMsg := by
  unfold initRoll
  rw [h]
  rfl

/-- Witness for C1: the __init__.py handler answers 2*3 with the
unsupported-operator response. -/
theorem c1_witness : initRoll "2*3".data rngLo = RollOutcome.unsupportedMsg :=
  c1_amended "2*3".data rngLo (by decide)

/-- Counterexample to C1 as stated: the `client.py` roll handler reports
the input 2*3 with the generic parse-failure message, not the
unsupported-operator response. -/
theorem c1_counterexample : clientRoll "2*3".data rngLo = RollOutcome.parseFailMsg := by rfl

/-- C2 (amended): parsing the empty string succeeds with an absent tree
(no error is raised by the parser), but evaluating that parse result does
not yield a total of 0 — the walker raises `NoTreeError`, which the
handler does not catch, so no result is produced. -/
theorem c2_amended (rng : RngT) :
    parseClient "".data = Except.ok none ∧
    clientRoll "".data rng = RollOutcome.noTreeCrash := ⟨rfl, rfl⟩

/-- Counterexample to C2 as stated: on empty input the roll handler ends
in the uncaught `NoTreeError`, not in the report with total 0,
cast count 0 and components consisting of the single 0. -/
theorem c2_counterexample :
    clientRoll "".data rngLo = RollOutcome.noTreeCrash ∧
    RollOutcome.noTreeCrash ≠
      RollOutcome.report "computed" 0 (some [Comp.scalar 0]) := ⟨rfl, by decide⟩

/-- C3 (amended): whenever the term text is non-empty after stripping and
no grammar alternative for a term matches, the failure is the typed
`ParseError` (which aborts the whole parse with no partial tree, by
construction of the `Except`-valued parse); but the parser can raise other
errors: a trailing operator such as 2+ makes `add_child(None)` raise a
`TypeError`, and whitespace-only input makes `_adv` raise an `IndexError`,
so not every failure is the typed ParseError. -/
theorem c3_amended :
    (∀ t : List Char, pyStrip t ≠ [] → exIsErr (termP false t) = true →
      termP false t = Except.error PErr.parseError) ∧
    parseClient "2+".data = Except.error PErr.typeError ∧
    parseClient " ".data = Except.error PErr.indexError := by
  refine ⟨?_, rfl, rfl⟩
  intro t hs hf
  cases h : termP false t with
  | ok p => rw [h] at hf; exact absurd hf (by simp [exIsErr])
  | error e =>
    have he := termP_err hs h
    subst he
    rfl

/-- Witness for C3: on the unmatched term text x the failure is the
typed ParseError. -/
theorem c3_witness : termP false "x".data = Except.error PErr.parseError :=
  c3_amended.1 "x".data (by decide) (by rfl)

/-- Counterexample to C3 as stated: on whitespace-only input no term
alternative matches, yet the parser raises an `IndexError`, not the typed
`ParseError`. -/
theorem c3_counterexample :
    parseClient " ".data = Except.error PErr.indexError ∧
    PErr.indexError ≠ PErr.parseError := ⟨rfl, by decide⟩

/-- C4 (amended): on a successful parse and evaluation the summary uses
the verb rolled exactly when `cast_count` is non-zero (else computed), and
the component breakdown is included exactly when `cast_count` — the number
of dice rolled, not the number of displayed components — is under 25. -/
theorem c4_amended (l : List Char) (rng : RngT) (tree : PNode) (st : EvalSt)
    (ns : List PNode) (h1 : parseClient l = .ok (some tree))
    (h2 : evalNodesC rng (walkNode tree) st0 = .ok (st, ns)) :
    clientRoll l rng =
      RollOutcome.report (if st.numCasts = 0 then "computed" else "rolled")
        (st.total + st.constTotal)
        (if st.numCasts < 25 then some (st.comps ++ [Comp.scalar st.constTotal])
          else none) := by
  simp [clientRoll, h1, h2, assembleReport]

/-- Witness for C4: the input 25d6 rolls 25 dice and its breakdown is
suppressed. -/
theorem c4_witness : clientRoll "25d6".data rngLo = RollOutcome.report "rolled" 25 none :=
  c4_amended "25d6".data rngLo tree25 st25 ns25 rfl rfl

/-- Counterexample to C4 as stated: for 25d6 only 2 components would be
displayed (the roll group and the constant subtotal), which is under the
ceiling of 25, yet the breakdown is suppressed because 25 dice were
rolled — the gate is the cast count, not the displayed component count. -/
theorem c4_counterexample :
    parseClient "25d6".data = Except.ok (some tree25) ∧
    evalNodesC rngLo (walkNode tree25) st0 = Except.ok (st25, ns25) ∧
    (st25.comps ++ [Comp.scalar st25.constTotal]).length = 2 ∧ 2 < 25 ∧
    clientRoll "25d6".data rngLo = RollOutcome.report "rolled" 25 none :=
  ⟨rfl, rfl, rfl, by decide, rfl⟩

/-- C5 (confirmed): for a dice-cast terminal the evaluation step rejects
with the too-many-dice outcome exactly when the digit-length of the count
string exceeds 5, and with the dice-too-large outcome exactly when the
count is within bounds and the digit-length of the size string exceeds 6
(a literal digit-length check on the strings the parser stored); and any
step error aborts the evaluation loop at once, the remaining terminals
unevaluated and the partial state discarded (the error outcome carries no
total). -/
theorem c5_theorem (rng : RngT) (st : EvalSt) (raw ds ss : List Char) :
    (evalStepC rng (PNode.mk raw "diecast" [] (some (.s ds)) (some (.s ss))) st
        = .error .tooMany ↔ 5 < ds.length) ∧
    (evalStepC rng (PNode.mk raw "diecast" [] (some (.s ds)) (some (.s ss))) st
        = .error .tooBig ↔ ds.length ≤ 5 ∧ 6 < ss.length) ∧
    (∀ (node : PNode) (restNodes : List PNode) (e : AbortE),
      evalStepC rng node st = .error e →
      evalNodesC rng (node :: restNodes) st = .error e) := by
  refine ⟨?_, ?_, ?_⟩
  · simp only [evalStepC, PNode.type, PNode.raw, PNode.nfield, PNode.sizefield]
    norm_num
    split_ifs with h1 h2 <;> simp_all
  · simp only [evalStepC, PNode.type, PNode.raw, PNode.nfield, PNode.sizefield]
    norm_num
    split_ifs with h1 h2 <;> simp_all
  · intro node restNodes e h
    unfold evalNodesC
    rw [h]

/-- Witness for C5: a 6-digit count (100000) aborts the loop with the
too-many-dice outcome, while the 5-digit count 99999 is not rejected as
too many. -/
theorem c5_witness :
    evalNodesC rngLo
      [PNode.mk "100000d6".data "diecast" [] (some (.s "100000".data)) (some (.s "6".data))] st0
      = Except.error AbortE.tooMany ∧
    evalStepC rngLo
      (PNode.mk "99999d6".data "diecast" [] (some (.s "99999".data)) (some (.s "6".data))) st0
      ≠ Except.error AbortE.tooMany := by
  refine ⟨(c5_theorem rngLo st0 "100000d6".data "100000".data "6".data).2.2 _ []
    AbortE.tooMany rfl, ?_⟩
  intro h
  exact absurd ((c5_theorem rngLo st0 "99999d6".data "99999".data "6".data).1.mp h)
    (by decide)

/-- C6 (amended, adding the digit-length proviso the evaluator enforces):
for every dice-cast input of digits, the letter d, and digits — with
explicit count of at most 5 digits, size of at most 6 digits, count and
size at least 1, and an oracle respecting the randint range — the parse
yields the single diecast terminal, the evaluation state ends with
cast count exactly the count N (it started at 0, so cast count increased
by N), total the sum of the count-many oracle rolls (each taken at sign
+1, which the state still carries), the handler reports rolled with that
total, and under the oracle contract every individual roll lies in the
closed range from 1 to the face count; moreover on ANY diecast terminal
that passes the digit-length bounds, the evaluation step adds exactly its
count to the running cast count and leaves the running sign unchanged;
the input d20 with omitted count parses with count string 1; on the input
with one die minus one die the second roll is negated (the sign carries
from the minus operator through the second term), the total being the
first roll minus the second; and the operator evaluation step sets the
sign to +1 on plus and -1 otherwise, leaving the rest of the state
unchanged. -/
theorem c6_amended :
    (∀ (ds es : List Char) (rng : RngT),
      (∀ c ∈ ds, c.isDigit = true) → ds ≠ [] →
      es ≠ [] → (∀ c ∈ es, c.isDigit = true) →
      ds.length ≤ 5 → es.length ≤ 6 →
      1 ≤ toNatD ds → 1 ≤ toNatD es → RngOk rng →
      parseClient (ds ++ 'd' :: es) = .ok (some (treeNdM ds es)) ∧
      (∃ stf ns, evalNodesC rng (walkNode (treeNdM ds es)) st0 = .ok (stf, ns) ∧
        stf.numCasts = toNatD ds ∧
        stf.total = (rolls rng 0 (toNatD ds) (toNatD es)).sum ∧
        stf.constTotal = 0 ∧ stf.scalar = 1) ∧
      (∃ b, clientRoll (ds ++ 'd' :: es) rng =
        RollOutcome.report "rolled" ((rolls rng 0 (toNatD ds) (toNatD es)).sum) b) ∧
      (∀ r ∈ rolls rng 0 (toNatD ds) (toNatD es), 1 ≤ r ∧ r ≤ (toNatD es : Int))) ∧
    (∀ (rng : RngT) (st : EvalSt) (raw ds ss : List Char) (node' : PNode) (st' : EvalSt),
      evalStepC rng (PNode.mk raw "diecast" [] (some (.s ds)) (some (.s ss))) st
          = .ok (node', st') →
      st'.numCasts = st.numCasts + toNatD ds ∧ st'.scalar = st.scalar) ∧
    (parseClient "d20".data = Except.ok (some (PNode.mk "d20".data "expression"
      [PNode.mk "d20".data "term"
        [PNode.mk "d20".data "diecast" [] (some (NVal.s ['1'])) (some (NVal.s ['2', '0']))]
        none none] none none))) ∧
    (∀ rng : RngT, clientRoll "1d6 - 1d6".data rng =
      RollOutcome.report "rolled" (rng 0 1 6 - rng 1 1 6)
        (some [Comp.scalar (rng 0 1 6), Comp.scalar (-(rng 1 1 6)), Comp.scalar 0])) ∧
    (∀ (rng : RngT) (st : EvalSt) (raw : List Char),
      evalStepC rng (PNode.mk raw "operator" [] none none) st =
        .ok (PNode.mk raw "operator" [] none none,
          { st with scalar := if raw = ['+'] then 1 else -1 })) := by
  refine ⟨?_, ?_, rfl, ?_, ?_⟩
  · intro ds es rng hds hdne hne hes hL1 hL2 hN hM hrng
    obtain ⟨stf, ns, he, ht, hc, hct, hs⟩ :=
      evalC_single_diecast rng ds es hdne hL1 hL2 hN
    refine ⟨parseClient_NdM ds es hds hne hes, ?_, ?_, ?_⟩
    · rw [walkNode_NdM ds es]
      exact ⟨stf, ns, he, hc, ht, hct, hs⟩
    · refine ⟨if stf.numCasts < 25 then some (stf.comps ++ [Comp.scalar stf.constTotal])
        else none, ?_⟩
      unfold clientRoll
      rw [parseClient_NdM ds es hds hne hes]
      dsimp only
      rw [walkNode_NdM ds es, he]
      dsimp only
      unfold assembleReport
      rw [ht, hct, hc]
      rw [if_neg (show ¬(toNatD ds = 0) by omega)]
      norm_num
    · intro r hr
      simp only [rolls, List.mem_map, List.mem_range] at hr
      obtain ⟨i, hi, rfl⟩ := hr
      simp only [Nat.zero_add]
      exact hrng i 1 ((toNatD es : Nat) : Int) (by exact_mod_cast hM)
  · intro rng st raw ds ss node' st' h
    simp only [evalStepC, PNode.type, PNode.raw, PNode.nfield, PNode.sizefield] at h
    rw [if_neg (by decide : ¬(("diecast" : String) = "operator")),
        if_neg (by decide : ¬(("diecast" : String) = "constant")),
        if_neg (by decide : ¬(("diecast" : String) = "adv"))] at h
    split_ifs at h <;>
      first
        | (simp only [Except.ok.injEq, Prod.mk.injEq] at h
           rw [← h.2]
           exact ⟨rfl, rfl⟩)
        | simp_all
  · intro rng
    have hp : parseClient "1d6 - 1d6".data = .ok (some tree166) := rfl
    have hw : walkNode tree166 =
        [PNode.mk "1d6".data "diecast" [] (some (.s ['1'])) (some (.s ['6'])),
         PNode.mk ['-'] "operator" [] none none,
         PNode.mk "1d6".data "diecast" [] (some (.s ['1'])) (some (.s ['6']))] := rfl
    unfold clientRoll
    rw [hp]
    dsimp only
    rw [hw]
    simp only [evalNodesC, evalStepC, PNode.type, PNode.raw, PNode.nfield, PNode.sizefield]
    simp +decide [assembleReport, st0, toNatD, rolls]
    ring
  · intro rng st raw
    simp [evalStepC, PNode.type, PNode.raw]

/-- Witness for C6: the input 3d6 against the lower-bound oracle reports
rolled with total the sum of three rolls of 1, showing the group and the
trailing zero constant component; and the diecast step on the 25d6 node
raises the cast count from 0 by exactly 25. -/
theorem c6_witness :
    (clientRoll ("3".data ++ 'd' :: "6".data) rngLo
      = RollOutcome.report "rolled" ((rolls rngLo 0 (toNatD "3".data) (toNatD "6".data)).sum)
        (some [Comp.group [1, 1, 1], Comp.scalar 0])) ∧
    st25.numCasts = st0.numCasts + toNatD "25".data := by
  constructor
  · obtain ⟨-, -, ⟨b, hb⟩, -⟩ := c6_amended.1 "3".data "6".data rngLo (by decide) (by decide)
      (by decide) (by decide) (by decide) (by decide) (by decide) (by decide) rngLo_ok
    have hc : clientRoll ("3".data ++ 'd' :: "6".data) rngLo
        = RollOutcome.report "rolled" 3 (some [Comp.group [1, 1, 1], Comp.scalar 0]) := rfl
    rw [hb] at hc
    injection hc with h1 h2 h3
    rw [hb, h3]
  · exact (c6_amended.2.1 rngLo st0 "25d6".data "25".data "6".data
      (PNode.mk "25d6".data "diecast" [] (some (NVal.i 25)) (some (NVal.i 6))) st25 rfl).1

/-- Counterexample to C6 as stated: for the count 123456 (at least 1, with
at least 1 face), evaluation does not roll the dice and does not increase
the cast count by 123456; it aborts with the too-many-dice outcome,
because the claim omits the digit-length bound of C5. -/
theorem c6_counterexample :
    clientRoll "123456d6".data rngLo = RollOutcome.tooManyMsg := rfl

/-- C7 (confirmed): evaluation is deterministic and RNG-independent on any
terminal sequence with no advantage and no dice-cast node; a constant
terminal adds the sign times its value to the constant subtotal, leaving
the total, component list, cast count and RNG counter untouched; the
constant-only input 3 + 4 - 1 reports computed with total 6 and the
single trailing component 6, for every oracle; and the trailing constant
component is appended even when zero, as on the input 1d6. -/
theorem c7_theorem :
    (∀ nodes : List PNode, (∀ n ∈ nodes, n.type ≠ "adv" ∧ n.type ≠ "diecast") →
      ∀ (rng rng' : RngT) (st : EvalSt),
        evalNodesC rng nodes st = evalNodesC rng' nodes st) ∧
    (∀ (rng : RngT) (st : EvalSt) (ds : List Char),
      evalStepC rng (PNode.mk ds "constant" [] none none) st =
        .ok (PNode.mk ds "constant" [] none none,
          { st with constTotal := st.constTotal + st.scalar * (toNatD ds : Int) })) ∧
    (∀ rng : RngT, clientRoll "3 + 4 - 1".data rng =
      RollOutcome.report "computed" 6 (some [Comp.scalar 6])) ∧
    (∀ rng : RngT, clientRoll "1d6".data rng =
      RollOutcome.report "rolled" (rng 0 1 6)
        (some [Comp.scalar (rng 0 1 6), Comp.scalar 0])) := by
  refine ⟨?_, ?_, ?_, ?_⟩
  · intro nodes
    induction nodes with
    | nil => intro h rng rng' st; rfl
    | cons n restNodes ih =>
      intro h rng rng' st
      have hn := h n (by simp)
      simp only [evalNodesC, evalStepC_rng_irrel rng rng' n st hn.1 hn.2]
      cases hs : evalStepC rng' n st with
      | error e => rfl
      | ok p =>
        obtain ⟨node', st2⟩ := p
        dsimp only
        rw [ih (fun m hm => h m (by simp [hm])) rng rng' st2]
  · intro rng st ds
    simp [evalStepC, PNode.type, PNode.raw]
  · intro rng
    rfl
  · intro rng
    have hp : parseClient "1d6".data = .ok (some (PNode.mk "1d6".data "expression"
      [PNode.mk "1d6".data "term"
        [PNode.mk "1d6".data "diecast" [] (some (.s ['1'])) (some (.s ['6']))]
        none none] none none)) := rfl
    unfold clientRoll
    rw [hp]
    dsimp only
    simp only [walkNode, walkKids, evalNodesC, evalStepC, PNode.type, PNode.raw,
      PNode.nfield, PNode.sizefield]
    simp +decide [assembleReport, st0, toNatD, rolls]

/-- Witness for C7: a single constant terminal evaluates identically under
two different oracles. -/
theorem c7_witness :
    evalNodesC rngLo [PNode.mk ['3'] "constant" [] none none] st0 =
      evalNodesC (fun _ _ _ => 7) [PNode.mk ['3'] "constant" [] none none] st0 :=
  c7_theorem.1 [PNode.mk ['3'] "constant" [] none none]
    (by intro n hn; simp at hn; subst hn; exact ⟨by decide, by decide⟩)
    rngLo (fun _ _ _ => 7) st0

/-- C8 (confirmed): an advantage terminal consumes exactly the next two
oracle calls with range 1 to 20, picks their minimum when the keyword was
dis and their maximum otherwise (so the maximum for adv), adds the sign
times the picked value to the total, appends the raw unsigned two-roll
pair as a list component, and increments the cast count by 2; under the
oracle contract both rolls lie in the closed range 1 to 20; and the
keyword matcher normalizes adv and advantage to the node text adv, dis
and disadvantage to dis. -/
theorem c8_theorem :
    (∀ (rng : RngT) (st : EvalSt) (raw : List Char),
      evalStepC rng (PNode.mk raw "adv" [] none none) st =
        .ok (PNode.mk raw "adv" [] none none,
          { st with
              total := st.total + st.scalar *
                (if raw = "dis".data then min (rng st.k 1 20) (rng (st.k + 1) 1 20)
                  else max (rng st.k 1 20) (rng (st.k + 1) 1 20)),
              comps := st.comps ++ [Comp.group [rng st.k 1 20, rng (st.k + 1) 1 20]],
              numCasts := st.numCasts + 2,
              k := st.k + 2 })) ∧
    (∀ rng : RngT, RngOk rng → ∀ k : Nat,
      1 ≤ rng k 1 20 ∧ rng k 1 20 ≤ 20) ∧
    (advP "advantage".data = .ok (PNode.mk "adv".data "adv" [] none none, []) ∧
     advP "adv".data = .ok (PNode.mk "adv".data "adv" [] none none, []) ∧
     advP "disadvantage".data = .ok (PNode.mk "dis".data "adv" [] none none, []) ∧
     advP "dis".data = .ok (PNode.mk "dis".data "adv" [] none none, [])) := by
  refine ⟨?_, ?_, rfl, rfl, rfl, rfl⟩
  · intro rng st raw
    simp [evalStepC, PNode.type, PNode.raw]
  · intro rng h k
    exact h k 1 20 (by norm_num)

/-- Witness for C8: the lower-bound oracle's fifth call with range 1 to 20
lies in that range. -/
theorem c8_witness : 1 ≤ rngLo 5 1 20 ∧ rngLo 5 1 20 ≤ 20 :=
  c8_theorem.2.1 rngLo rngLo_ok 5

/-- C9 (amended): when the dice-cast matcher succeeds on already-stripped
text made of count digits, the letter d, size digits and a trailing
remainder not starting with a digit, the returned remainder is the
trailing text only up to the first newline — the trailing capture uses the
regex dot, which does not match a newline, so text from the first newline
on is silently dropped rather than returned. -/
theorem c9_amended (ds es rest : List Char)
    (hds : ∀ c ∈ ds, c.isDigit = true)
    (hne : es ≠ []) (hes : ∀ c ∈ es, c.isDigit = true)
    (hstrip : pyStrip (ds ++ 'd' :: (es ++ rest)) = ds ++ 'd' :: (es ++ rest))
    (hrest : ∀ c, rest.head? = some c → c.isDigit = false) :
    diecastP false (ds ++ 'd' :: (es ++ rest)) =
      .ok (.mk (ds ++ 'd' :: es) "diecast" []
            (some (NVal.s (if ds = [] then ['1'] else ds))) (some (NVal.s es)),
        rest.takeWhile (fun x => x ≠ '\n')) := by
  have h := diecastP_shape false ds es rest hds hne hes hstrip hrest
  simpa [nval] using h

/-- Witness for C9: on the text 2d6 followed by a newline and x the
matcher succeeds and returns the remainder up to the first newline. -/
theorem c9_witness :
    diecastP false (['2'] ++ 'd' :: (['6'] ++ ['\n', 'x'])) =
      .ok (.mk (['2'] ++ 'd' :: ['6']) "diecast" []
            (some (NVal.s (if (['2'] : List Char) = [] then ['1'] else ['2'])))
            (some (NVal.s ['6'])),
        (['\n', 'x'] : List Char).takeWhile (fun x => x ≠ '\n')) :=
  c9_amended ['2'] ['6'] ['\n', 'x'] (by decide) (by decide) (by decide)
    (by decide) (by decide)

/-- Counterexample to C9 as stated: on the input 2d6 followed by a newline
and x, the matcher succeeds but returns the empty remainder, although the
unconsumed text after the match is the non-empty newline-x — that trailing
text is dropped, contradicting that the remainder is everything after the
match. -/
theorem c9_counterexample :
    diecastP false "2d6\nx".data =
      .ok (PNode.mk "2d6".data "diecast" [] (some (NVal.s ['2'])) (some (NVal.s ['6'])), []) ∧
    ('\n' :: 'x' :: [] : List Char) ≠ [] := ⟨rfl, by decide⟩

/-- C10 (amended): the client evaluation loop does mutate the tree — on a
successful run the walked nodes come back with every dice-cast node's
count and size fields rewritten from their digit strings to integers
(`touchC`), while every node of another type is returned unchanged. -/
theorem c10_amended :
    (∀ (rng : RngT) (nodes : List PNode) (st st' : EvalSt) (ns : List PNode),
      evalNodesC rng nodes st = .ok (st', ns) → ns = nodes.map touchC) ∧
    (∀ node : PNode, node.type ≠ "diecast" → touchC node = node) := by
  constructor
  · intro rng nodes
    induction nodes with
    | nil =>
      intro st st' ns h
      simp only [evalNodesC, Except.ok.injEq, Prod.mk.injEq] at h
      rw [← h.2]
      rfl
    | cons n restNodes ih =>
      intro st st' ns h
      simp only [evalNodesC] at h
      cases he : evalStepC rng n st with
      | error e => rw [he] at h; exact absurd h (by simp)
      | ok p =>
        obtain ⟨node', st2⟩ := p
        rw [he] at h
        dsimp only at h
        cases hrest : evalNodesC rng restNodes st2 with
        | error e => rw [hrest] at h; exact absurd h (by simp)
        | ok q =>
          obtain ⟨st3, rest'⟩ := q
          rw [hrest] at h
          dsimp only at h
          simp only [Except.ok.injEq, Prod.mk.injEq] at h
          rw [← h.2, List.map_cons, evalStepC_touch he, ih st2 st3 rest' hrest]
  · intro node h
    unfold touchC
    rw [if_neg h]

/-- Witness for C10: evaluating the single walked diecast node of 2d6
returns the node with integer fields, the `touchC` image of the parsed
node. -/
theorem c10_witness :
    [PNode.mk "2d6".data "diecast" [] (some (NVal.i 2)) (some (NVal.i 6))] =
      List.map touchC
        [PNode.mk "2d6".data "diecast" [] (some (NVal.s ['2'])) (some (NVal.s ['6']))] :=
  c10_amended.1 rngLo
    [PNode.mk "2d6".data "diecast" [] (some (NVal.s ['2'])) (some (NVal.s ['6']))]
    st0 ⟨1, 0, 2, [Comp.group [1, 1]], 2, 2⟩
    [PNode.mk "2d6".data "diecast" [] (some (NVal.i 2)) (some (NVal.i 6))] rfl

/-- Counterexample to C10 as stated: parsing 2d6 and evaluating the walked
nodes leaves the dice-cast node changed — its count and size fields are
now integers where the parser stored digit strings, so the tree is not
left unchanged by evaluation. -/
theorem c10_counterexample :
    parseClient "2d6".data = Except.ok (some tree2d6) ∧
    walkNode tree2d6 =
      [PNode.mk "2d6".data "diecast" [] (some (NVal.s ['2'])) (some (NVal.s ['6']))] ∧
    evalNodesC rngLo (walkNode tree2d6) st0 =
      Except.ok (⟨1, 0, 2, [Comp.group [1, 1]], 2, 2⟩,
        [PNode.mk "2d6".data "diecast" [] (some (NVal.i 2)) (some (NVal.i 6))]) ∧
    PNode.mk "2d6".data "diecast" [] (some (NVal.i 2)) (some (NVal.i 6)) ≠
      PNode.mk "2d6".data "diecast" [] (some (NVal.s ['2'])) (some (NVal.s ['6'])) :=
  ⟨rfl, rfl, rfl, by simp⟩
